import Mathlib

/-!
Verification model of `webcrawler.py` (farisavdic/wiki_crawler).

The crawler builds a directed graph (networkx `DiGraph`) of Wikipedia
articles.  We embed the link-filtering routine (`Eintrag.getLinks`),
the recursive crawl (`Eintrag.index` / `Webcrawler.start`), the graph
registration (`Eintrag.addToGraph`), the driver with its catch-all
(`Webcrawler.createGraph`), the growth test (`Webcrawler.testNodeIncrease`)
and the cycle test (`Webcrawler.testCycles`).

External collaborators are modelled by their interface contract:
the HTTP fetch plus anchor extraction for a URL is an oracle
`Pages : String → Option (List String)` giving the raw `href` list of a
page (`none` = network failure, which `requests.get` raises as an
exception).  Python exceptions are modelled with `Except PyErr`; since
the mutable networkx graph survives a raised exception, every stateful
operation returns the state at the moment of the failure as well.

Python object identity matters: `Eintrag.index` passes the *Eintrag
object* (not its URL) as the `source` of each child, and networkx keys
nodes by hash/eq, which for `Eintrag` is object identity.  Node keys are
therefore either strings or object identities (`Node.obj` with an
allocation counter mirroring the order in which `Eintrag` objects are
constructed).
-/

/-- Python exceptions relevant to the crawler. -/
inductive PyErr where
  | indexError
  | fetchError
deriving DecidableEq, Repr

/-- A networkx node key: a URL string, or an `Eintrag` object identity. -/
inductive Node where
  | str (s : String)
  | obj (id : Nat)
deriving DecidableEq, Repr

/-- A networkx `DiGraph`: insertion-ordered node list and directed edge
list, without duplicates (networkx set semantics are maintained by the
`add` operations below). -/
structure DiGraph where
  nodes : List Node
  edges : List (Node × Node)
deriving DecidableEq, Repr

/-- `graph.add_node(n)`: idempotent, keeps insertion order. -/
def addNodeG (g : DiGraph) (n : Node) : DiGraph :=
  if n ∈ g.nodes then g else { g with nodes := g.nodes ++ [n] }

/-- Adds the directed edge record itself, collapsing duplicates. -/
def addEdgeOnly (g : DiGraph) (u v : Node) : DiGraph :=
  if (u, v) ∈ g.edges then g else { g with edges := g.edges ++ [(u, v)] }

/-- `graph.add_edge(u, v)`: adds missing endpoints, collapses duplicate
edges. -/
def addEdgeG (g : DiGraph) (u v : Node) : DiGraph :=
  addEdgeOnly (addNodeG (addNodeG g u) v) u v

/-- `graph.degree(n)` on a `DiGraph`: in-degree plus out-degree (a
self-loop counts twice). -/
def degreeG (g : DiGraph) (n : Node) : Nat :=
  (g.edges.filter (fun e => e.1 = n)).length
    + (g.edges.filter (fun e => e.2 = n)).length

/-- The interpreter state touched by the crawler: the shared mutable
graph, the allocation counter for `Eintrag` objects, whether the
persisted `graph.xml` exists, and the lines appended to
`testNodeIncrease.txt`. -/
structure PyState where
  graph : DiGraph
  nextId : Nat
  file : Bool
  log : List String
deriving DecidableEq, Repr

/-- Fetch-plus-anchor-extraction oracle: raw `href` attributes of the
anchors of the page at a URL, or `none` for a network failure. -/
abbrev Pages := String → Option (List String)

/-- `requests.get` + `BeautifulSoup` anchor extraction for a node used
as a URL.  Fetching an `Eintrag` object (which `testNodeIncrease` can
attempt) always fails, as `requests.get` rejects a non-URL argument. -/
def fetchA (pages : Pages) : Node → Except PyErr (List String)
  | Node.str s =>
    match pages s with
    | some hrefs => Except.ok hrefs
    | none => Except.error PyErr.fetchError
  | Node.obj _ => Except.error PyErr.fetchError

/-- Python `str.split(sep)` for a one-character separator, on char
lists: `"".split` gives `[""]`, separators at the ends give empty
segments. -/
def splitChars (sep : Char) : List Char → List (List Char)
  | [] => [[]]
  | c :: t =>
    let r := splitChars sep t
    if c = sep then [] :: r
    else
      match r with
      | h :: t2 => (c :: h) :: t2
      | [] => [[c]]

/-- Python `sub in s` substring test, on char lists. -/
def subOf (pat : List Char) : List Char → Bool
  | [] => pat.isEmpty
  | c :: t => pat.isPrefixOf (c :: t) || subOf pat t

def httpsPat : List Char := "https://".data

def httpPat : List Char := "http://".data

def wikiSeg : List Char := "wiki".data

/-- The excluded namespace list `exc` of `Eintrag.getLinks`. -/
def excChars : List (List Char) :=
  ["Wikipedia".data, "Portal".data, "Spezial".data, "Kategorie".data,
   "Datei".data, "Hilfe".data, "Diskussion".data]

/-- Site origin prepended to surviving links. -/
def origin : String := "http://de.wikipedia.org"

/-- First loop of `Eintrag.getLinks`: scans the raw hrefs in order.
`Except.error` models the uncaught `IndexError` from `str(l)[0]` on an
empty href; `Except.ok none` models the `return []` in the
`except`-handler (it abandons every link collected so far);
`Except.ok (some links)` is normal completion. -/
def collectLinks : List String → Except PyErr (Option (List String))
  | [] => Except.ok (some [])
  | l :: rest =>
    if subOf httpsPat l.data || subOf httpPat l.data then collectLinks rest
    else
      match l.data.head? with
      | none => Except.error PyErr.indexError
      | some c =>
        if c = '#' then collectLinks rest
        else
          match (splitChars '/' l.data).drop 1 with
          | [] => Except.ok none
          | s0 :: sp1 =>
            if s0 = wikiSeg then
              match sp1 with
              | [] => Except.ok none
              | s1 :: _ =>
                if ((splitChars ':' s1).headD []) ∈ excChars then
                  collectLinks rest
                else (collectLinks rest).map (fun o => o.map (fun ls => l :: ls))
            else collectLinks rest

/-- Second loop of `Eintrag.getLinks`: `if flink not in result:
result.append(flink)`. -/
def dedupAux (acc : List String) : List String → List String
  | [] => acc
  | x :: t => if x ∈ acc then dedupAux acc t else dedupAux (acc ++ [x]) t

/-- `Eintrag.getLinks` on the extracted hrefs: filter, prefix with the
origin, deduplicate, then `result.pop()` — which raises `IndexError`
when the deduplicated list is empty. -/
def Eintrag.getLinks (hrefs : List String) : Except PyErr (List String) :=
  match collectLinks hrefs with
  | Except.error e => Except.error e
  | Except.ok none => Except.ok []
  | Except.ok (some links) =>
    match dedupAux [] (links.map (fun l => origin ++ l)) with
    | [] => Except.error PyErr.indexError
    | r => Except.ok r.dropLast

/-- `Eintrag.addToGraph`: `add_node(self.url)` followed by
`add_edge(self.source, self.url)`. -/
def Eintrag.addToGraph (g : DiGraph) (source url : Node) : DiGraph :=
  addEdgeG (addNodeG g url) source url

/-- Runs a stateful step over a list, aborting at the first raised
exception with the state frozen at the failure (Python `for` loop whose
body may raise). -/
def runSeq {α : Type} (step : α → PyState → Except PyErr Unit × PyState) :
    List α → PyState → Except PyErr Unit × PyState
  | [], st => (Except.ok (), st)
  | x :: rest, st =>
    match step x st with
    | (Except.ok _, st1) => runSeq step rest st1
    | (Except.error e, st1) => (Except.error e, st1)

/-- `Eintrag.index(layers)` together with the child `Eintrag`
constructions it performs.  `fuel = layers + 1`: `fuel = 0` is the
`layers < 0` base case.  For each surviving link the child `Eintrag` is
constructed (fetch; on success allocate the object identity and register
node and edge — the edge source is the *parent object*), then the child
is indexed with one layer less.  Exceptions propagate. -/
def Eintrag.index (pages : Pages) : Nat → Nat → List String → PyState →
    Except PyErr Unit × PyState
  | 0, _, _, st => (Except.ok (), st)
  | fuel + 1, selfId, anchors, st =>
    match Eintrag.getLinks anchors with
    | Except.error e => (Except.error e, st)
    | Except.ok links =>
      runSeq
        (fun l st1 =>
          match fetchA pages (Node.str l) with
          | Except.error e => (Except.error e, st1)
          | Except.ok ca =>
            Eintrag.index pages fuel st1.nextId ca
              { st1 with
                graph := Eintrag.addToGraph st1.graph (Node.obj selfId) (Node.str l),
                nextId := st1.nextId + 1 })
        links st

/-- `Webcrawler.start(url, layers)`: construct the seed
`Eintrag(url, url, self)` — fetch the seed, register it with an edge
from its source, which *is the seed URL itself* — then index it. -/
def Webcrawler.start (pages : Pages) (url : Node) (layers : Int)
    (st : PyState) : Except PyErr Unit × PyState :=
  match fetchA pages url with
  | Except.error e => (Except.error e, st)
  | Except.ok anchors =>
    Eintrag.index pages (layers + 1).toNat st.nextId anchors
      { st with
        graph := Eintrag.addToGraph st.graph url url,
        nextId := st.nextId + 1 }

/-- `Webcrawler.createGraph(layers)`: runs `start` on a random URL
inside `try/except`; an escaping exception is caught and reported, and
the state reached at the failure is kept. -/
def Webcrawler.createGraph (pages : Pages) (randUrl : String)
    (layers : Int) (st : PyState) : Option PyErr × PyState :=
  match Webcrawler.start pages (Node.str randUrl) layers st with
  | (Except.error e, st1) => (some e, st1)
  | (Except.ok _, st1) => (none, st1)

/-- `Webcrawler.resetGraph`: deletes `graph.xml` (a missing file is
reported but non-fatal).  The in-memory graph is not touched. -/
def Webcrawler.resetGraph (st : PyState) : PyState :=
  { st with file := false }

/-- Inner loop of `Webcrawler.testNodeIncrease` (`for c in
range(layers)`): collect the degree-1 nodes, run a depth-0 crawl from
each, then append the record `"i.c: count"` — without a newline. -/
def Webcrawler.tniIter (pages : Pages) (i : Nat) : Nat → Nat → PyState →
    Except PyErr Unit × PyState
  | 0, _, st => (Except.ok (), st)
  | rem + 1, c, st =>
    match runSeq (fun e st1 => Webcrawler.start pages e 0 st1)
        (st.graph.nodes.filter (fun n => degreeG st.graph n == 1)) st with
    | (Except.error e, st1) => (Except.error e, st1)
    | (Except.ok _, st1) =>
      Webcrawler.tniIter pages i rem (c + 1)
        { st1 with log := st1.log ++ [Nat.repr i ++ "." ++ Nat.repr c ++ ": "
            ++ Nat.repr st1.graph.nodes.length] }

/-- Outer loop of `Webcrawler.testNodeIncrease` (`for i in
range(runs)`): depth-0 crawl from the i-th random seed, append the
newline-terminated record `"i.0: count"`, then run the inner loop. -/
def Webcrawler.tniRun (pages : Pages) (seeds : Nat → String) (layers : Nat) :
    Nat → Nat → PyState → Except PyErr Unit × PyState
  | 0, _, st => (Except.ok (), st)
  | rem + 1, i, st =>
    match Webcrawler.start pages (Node.str (seeds i)) 0 st with
    | (Except.error e, st1) => (Except.error e, st1)
    | (Except.ok _, st1) =>
      match Webcrawler.tniIter pages i layers 0
          { st1 with log := st1.log ++ [Nat.repr i ++ ".0: "
              ++ Nat.repr st1.graph.nodes.length ++ "\n"] } with
      | (Except.error e, st3) => (Except.error e, st3)
      | (Except.ok _, st3) => Webcrawler.tniRun pages seeds layers rem (i + 1) st3

/-- `Webcrawler.testNodeIncrease(runs, layers)`: `resetGraph` (file
deletion only), then the run loop. -/
def Webcrawler.testNodeIncrease (pages : Pages) (seeds : Nat → String)
    (runs layers : Nat) (st : PyState) : Except PyErr Unit × PyState :=
  Webcrawler.tniRun pages seeds layers runs 0 (Webcrawler.resetGraph st)

/-- `DiGraph.to_undirected()` edge set: one direction survives per
unordered pair (a later reversed duplicate is dropped). -/
def undFold (acc : List (Node × Node)) : List (Node × Node) → List (Node × Node)
  | [] => acc
  | (u, v) :: rest =>
    if (u, v) ∈ acc ∨ (v, u) ∈ acc then undFold acc rest
    else undFold (acc ++ [(u, v)]) rest

/-- The undirected projection of the graph. -/
def toUndirected (g : DiGraph) : DiGraph :=
  { nodes := g.nodes, edges := undFold [] g.edges }

/-- Removes the first class containing `u` from a partition, returning
that class and the remaining classes. -/
def pullClass : List (List Node) → Node → Option (List Node × List (List Node))
  | [], _ => none
  | p :: ps, u =>
    if u ∈ p then some (p, ps)
    else
      match pullClass ps u with
      | some (q, rest) => some (q, p :: rest)
      | none => none

/-- Whether some class contains both endpoints. -/
def sameClass (parts : List (List Node)) (u v : Node) : Bool :=
  parts.any (fun p => decide (u ∈ p) && decide (v ∈ p))

/-- The spanning-forest sweep underlying networkx `cycle_basis` (a
library routine external to this repository, modelled by its counting
behaviour): edges joining two already-connected nodes — including
self-loops — each contribute one basis cycle; the remaining edges merge
their endpoint classes (forest edges). Returns the number of basis
cycles and the final partition into connected components. -/
def cyclesParts : List (Node × Node) → List (List Node) → Nat × List (List Node)
  | [], parts => (0, parts)
  | (u, v) :: rest, parts =>
    if sameClass parts u v then
      let r := cyclesParts rest parts
      (r.1 + 1, r.2)
    else
      match pullClass parts u with
      | none => cyclesParts rest parts
      | some (q, parts1) =>
        match pullClass parts1 v with
        | none => cyclesParts rest (q :: parts1)
        | some (q2, parts2) => cyclesParts rest ((q ++ q2) :: parts2)

/-- `len(nx.cycle_basis(uGraph))` for an undirected graph. -/
def cycleBasisLen (g : DiGraph) : Nat :=
  (cyclesParts g.edges (g.nodes.map (fun n => [n]))).1

/-- Number of connected components of an undirected graph, as left by
the same spanning-forest sweep. -/
def componentsCount (g : DiGraph) : Nat :=
  (cyclesParts g.edges (g.nodes.map (fun n => [n]))).2.length

/-- `Webcrawler.testCycles`: undirected projection, then the size of
its cycle basis. -/
def Webcrawler.testCycles (g : DiGraph) : Nat :=
  cycleBasisLen (toUndirected g)

/-- Modelled from the spec (§4.1 rules 1-5): the per-href keep
predicate of the reference LinkFilter — no absolute scheme, no leading
fragment marker, first path segment after the leading (empty) segment is
`wiki`, and the prefix of the following segment before `:` avoids the
excluded namespaces. -/
def specKeep (l : String) : Bool :=
  !(subOf httpsPat l.data) && !(subOf httpPat l.data)
    && !(decide (l.data.head? = some '#'))
    && (match (splitChars '/' l.data).drop 1 with
        | s0 :: s1 :: _ =>
          decide (s0 = wikiSeg)
            && !(decide ((splitChars ':' s1).headD [] ∈ excChars))
        | _ => false)

/-- Modelled from the spec (§4.1): the reference LinkFilter result —
keep, prefix with the origin, deduplicate keeping first occurrences,
drop the final entry unconditionally. -/
def linkFilterSpec (hrefs : List String) : List String :=
  (dedupAux [] ((hrefs.filter specKeep).map (fun l => origin ++ l))).dropLast

/-- An href whose processing in `Eintrag.getLinks` neither raises the
uncaught `IndexError` (empty string) nor takes the fail-soft
`return []` branch (path with too few segments). -/
def wellFormedHref (l : String) : Bool :=
  subOf httpsPat l.data || subOf httpPat l.data ||
    (match l.data.head? with
     | none => false
     | some c =>
       decide (c = '#') ||
         (match (splitChars '/' l.data).drop 1 with
          | [] => false
          | s0 :: sp1 => !(decide (s0 = wikiSeg)) || !sp1.isEmpty))

/-- Page oracle built from an association list of URL to raw hrefs;
URLs absent from the list fail to fetch. -/
def mkPages (ps : List (String × List String)) : Pages :=
  fun u => List.lookup u ps

/-- A fresh interpreter state: empty graph, persisted file present. -/
def st0 : PyState := ⟨⟨[], []⟩, 0, true, []⟩

/-- A state with one pre-existing node, as left by an earlier crawl. -/
def stPre : PyState := ⟨⟨[Node.str "X"], []⟩, 0, true, []⟩

/-- Seed page with two external links, one fragment link and one valid
article link (scenario 1 of the spec). -/
def pagesC1 : Pages := mkPages
  [("S1", ["https://x.example/a", "https://y.example/b", "#cite", "/wiki/Ziel"])]

def pagesC3 : Pages := mkPages [("S3", ["/wiki"])]

def pagesW3 : Pages := mkPages [("W3", ["/wiki"])]

def pagesC4 : Pages := mkPages
  [("S4", ["/wiki/A", "/wiki/B", "/wiki/C"]),
   ("http://de.wikipedia.org/wiki/A", []),
   ("http://de.wikipedia.org/wiki/B", [])]

def pagesW4 : Pages := mkPages
  [("W4", ["/wiki/A", "/wiki/B", "/wiki/C"]),
   ("http://de.wikipedia.org/wiki/A", []),
   ("http://de.wikipedia.org/wiki/B", [])]

def pagesC6 : Pages := mkPages
  [("T6", ["/wiki/A", "/wiki/B"]), ("http://de.wikipedia.org/wiki/A", [])]

def pagesC7 : Pages := mkPages
  [("T7", ["/wiki/A", "/wiki/B", "/wiki/C"]),
   ("http://de.wikipedia.org/wiki/A", ["/wiki/P", "/wiki/Q", "/wiki/R"]),
   ("http://de.wikipedia.org/wiki/B", ["/wiki/P", "/wiki/Q", "/wiki/R"]),
   ("http://de.wikipedia.org/wiki/P", []),
   ("http://de.wikipedia.org/wiki/Q", [])]

/-- Environment whose depth-1 crawl fails while fetching the second
grandchild: the E-page is absent (network failure). -/
def pagesC8 : Pages := mkPages
  [("F8", ["/wiki/A", "/wiki/B", "/wiki/C"]),
   ("http://de.wikipedia.org/wiki/A", ["/wiki/D", "/wiki/E", "/wiki/G"]),
   ("http://de.wikipedia.org/wiki/D", [])]

def pagesC10 : Pages := mkPages [("S10", [""])]

/-- A directed triangle, used to instantiate the cycle-basis claim. -/
def g3 : DiGraph :=
  ⟨[Node.str "A", Node.str "B", Node.str "C"],
   [(Node.str "A", Node.str "B"), (Node.str "B", Node.str "C"),
    (Node.str "C", Node.str "A")]⟩

/-- The node count recorded by the growth test's first record: the size
of the node set right after the initial seed crawl (which starts from
the graph as it was before the reset, since the reset only deletes the
persisted file). -/
def tniFirstCount (pages : Pages) (seeds : Nat → String) (st : PyState) : Nat :=
  (Webcrawler.start pages (Node.str (seeds 0)) 0 (Webcrawler.resetGraph st)).2.graph.nodes.length

/-- The graph/log/file footprint of a crawl step: nodes and edges are
only appended, the log and the persisted-file flag are untouched. -/
def GraphExt (st st1 : PyState) : Prop :=
  (∃ a, st1.graph.nodes = st.graph.nodes ++ a) ∧
    (∃ b, st1.graph.edges = st.graph.edges ++ b) ∧
    st1.log = st.log ∧ st1.file = st.file

/-- Footprint of `Eintrag.index`: as `GraphExt`, and moreover every
appended edge goes from an `Eintrag` object to a URL string. -/
def ChildExt (st st1 : PyState) : Prop :=
  (∃ a, st1.graph.nodes = st.graph.nodes ++ a) ∧
    (∃ b, st1.graph.edges = st.graph.edges ++ b ∧
      ∀ e ∈ b, ∃ k s2, e = (Node.obj k, Node.str s2)) ∧
    st1.log = st.log ∧ st1.file = st.file

theorem graphExt_refl (st : PyState) : GraphExt st st :=
  ⟨⟨[], by simp⟩, ⟨[], by simp⟩, rfl, rfl⟩

theorem graphExt_trans {a b c : PyState} (h1 : GraphExt a b)
    (h2 : GraphExt b c) : GraphExt a c := by
  obtain ⟨⟨n1, hn1⟩, ⟨e1, he1⟩, hl1, hf1⟩ := h1
  obtain ⟨⟨n2, hn2⟩, ⟨e2, he2⟩, hl2, hf2⟩ := h2
  exact ⟨⟨n1 ++ n2, by simp [hn2, hn1]⟩, ⟨e1 ++ e2, by simp [he2, he1]⟩,
    hl2.trans hl1, hf2.trans hf1⟩

theorem childExt_refl (st : PyState) : ChildExt st st :=
  ⟨⟨[], by simp⟩, ⟨[], by simp⟩, rfl, rfl⟩

theorem childExt_trans {a b c : PyState} (h1 : ChildExt a b)
    (h2 : ChildExt b c) : ChildExt a c := by
  obtain ⟨⟨n1, hn1⟩, ⟨e1, he1, hb1⟩, hl1, hf1⟩ := h1
  obtain ⟨⟨n2, hn2⟩, ⟨e2, he2, hb2⟩, hl2, hf2⟩ := h2
  refine ⟨⟨n1 ++ n2, by simp [hn2, hn1]⟩,
    ⟨e1 ++ e2, by simp [he2, he1], ?_⟩, hl2.trans hl1, hf2.trans hf1⟩
  intro e he
  rcases List.mem_append.mp he with h | h
  · exact hb1 e h
  · exact hb2 e h

theorem childExt_graphExt {a b : PyState} (h : ChildExt a b) : GraphExt a b := by
  obtain ⟨hn, ⟨e1, he1, _⟩, hl, hf⟩ := h
  exact ⟨hn, ⟨e1, he1⟩, hl, hf⟩

theorem addNodeG_nodes (g : DiGraph) (n : Node) :
    ∃ a, (addNodeG g n).nodes = g.nodes ++ a := by
  unfold addNodeG
  split
  · exact ⟨[], by simp⟩
  · exact ⟨[n], rfl⟩

theorem addNodeG_edges (g : DiGraph) (n : Node) :
    (addNodeG g n).edges = g.edges := by
  unfold addNodeG
  split <;> rfl

theorem addEdgeOnly_nodes (g : DiGraph) (u v : Node) :
    (addEdgeOnly g u v).nodes = g.nodes := by
  unfold addEdgeOnly
  split <;> rfl

theorem addEdgeOnly_edges (g : DiGraph) (u v : Node) :
    ∃ b, (addEdgeOnly g u v).edges = g.edges ++ b ∧ ∀ e ∈ b, e = (u, v) := by
  unfold addEdgeOnly
  split
  · exact ⟨[], by simp⟩
  · exact ⟨[(u, v)], rfl, by simp⟩

theorem addEdgeG_nodes (g : DiGraph) (u v : Node) :
    ∃ a, (addEdgeG g u v).nodes = g.nodes ++ a := by
  unfold addEdgeG
  rw [addEdgeOnly_nodes]
  obtain ⟨a1, h1⟩ := addNodeG_nodes g u
  obtain ⟨a2, h2⟩ := addNodeG_nodes (addNodeG g u) v
  exact ⟨a1 ++ a2, by simp [h2, h1]⟩

theorem addEdgeG_edges (g : DiGraph) (u v : Node) :
    ∃ b, (addEdgeG g u v).edges = g.edges ++ b ∧ ∀ e ∈ b, e = (u, v) := by
  unfold addEdgeG
  obtain ⟨b, hb, hbe⟩ := addEdgeOnly_edges (addNodeG (addNodeG g u) v) u v
  rw [addNodeG_edges, addNodeG_edges] at hb
  exact ⟨b, hb, hbe⟩

theorem addToGraph_nodes (g : DiGraph) (source url : Node) :
    ∃ a, (Eintrag.addToGraph g source url).nodes = g.nodes ++ a := by
  unfold Eintrag.addToGraph
  obtain ⟨a1, h1⟩ := addNodeG_nodes g url
  obtain ⟨a2, h2⟩ := addEdgeG_nodes (addNodeG g url) source url
  exact ⟨a1 ++ a2, by simp [h2, h1]⟩

theorem addToGraph_edges (g : DiGraph) (source url : Node) :
    ∃ b, (Eintrag.addToGraph g source url).edges = g.edges ++ b ∧
      ∀ e ∈ b, e = (source, url) := by
  unfold Eintrag.addToGraph
  obtain ⟨b, hb, hbe⟩ := addEdgeG_edges (addNodeG g url) source url
  rw [addNodeG_edges] at hb
  exact ⟨b, hb, hbe⟩

theorem runSeq_rel {α : Type} (step : α → PyState → Except PyErr Unit × PyState)
    (R : PyState → PyState → Prop)
    (hrefl : ∀ st, R st st)
    (htrans : ∀ {a b c : PyState}, R a b → R b c → R a c)
    (hstep : ∀ x st, R st (step x st).2) :
    ∀ xs st, R st (runSeq step xs st).2 := by
  intro xs
  induction xs with
  | nil => intro st; exact hrefl st
  | cons x t ih =>
    intro st
    have hx := hstep x st
    rcases hr : step x st with ⟨r, st1⟩
    rw [hr] at hx
    cases r with
    | ok _ =>
      rw [runSeq, hr]
      exact htrans hx (ih st1)
    | error e =>
      rw [runSeq, hr]
      exact hx

theorem index_childExt (pages : Pages) :
    ∀ fuel selfId anchors st,
      ChildExt st (Eintrag.index pages fuel selfId anchors st).2 := by
  intro fuel
  induction fuel with
  | zero => intro selfId anchors st; exact childExt_refl st
  | succ f ih =>
    intro selfId anchors st
    rw [Eintrag.index]
    rcases hg : Eintrag.getLinks anchors with e | links
    · exact childExt_refl st
    · refine runSeq_rel _ ChildExt childExt_refl (fun h1 h2 => childExt_trans h1 h2) ?_ links st
      intro l st1
      rcases hf : fetchA pages (Node.str l) with e | ca
      · exact childExt_refl st1
      · refine childExt_trans (b := { st1 with
          graph := Eintrag.addToGraph st1.graph (Node.obj selfId) (Node.str l),
          nextId := st1.nextId + 1 }) ?_ (ih _ _ _)
        obtain ⟨a, ha⟩ := addToGraph_nodes st1.graph (Node.obj selfId) (Node.str l)
        obtain ⟨b, hb, hbe⟩ := addToGraph_edges st1.graph (Node.obj selfId) (Node.str l)
        exact ⟨⟨a, ha⟩, ⟨b, hb, fun e he => ⟨selfId, l, hbe e he⟩⟩, rfl, rfl⟩

/-- Footprint of `Webcrawler.start`: nodes and edges are only appended,
each new edge is either the seed's self-referencing registration edge or
an object-to-string child edge, and log and file are untouched. -/
theorem start_ext (pages : Pages) (url : Node) (layers : Int) (st : PyState) :
    (∃ a, (Webcrawler.start pages url layers st).2.graph.nodes = st.graph.nodes ++ a) ∧
      (∃ b, (Webcrawler.start pages url layers st).2.graph.edges = st.graph.edges ++ b ∧
        ∀ e ∈ b, e = (url, url) ∨ ∃ k s2, e = (Node.obj k, Node.str s2)) ∧
      (Webcrawler.start pages url layers st).2.log = st.log ∧
      (Webcrawler.start pages url layers st).2.file = st.file := by
  rw [Webcrawler.start]
  rcases hf : fetchA pages url with e | anchors
  · exact ⟨⟨[], by simp⟩, ⟨[], by simp⟩, rfl, rfl⟩
  · set st1 : PyState := { st with
      graph := Eintrag.addToGraph st.graph url url,
      nextId := st.nextId + 1 } with hst1
    obtain ⟨⟨a2, ha2⟩, ⟨b2, hb2, hbe2⟩, hl2, hf2⟩ :=
      index_childExt pages (layers + 1).toNat st.nextId anchors st1
    obtain ⟨a1, ha1⟩ := addToGraph_nodes st.graph url url
    obtain ⟨b1, hb1, hbe1⟩ := addToGraph_edges st.graph url url
    refine ⟨⟨a1 ++ a2, ?_⟩, ⟨b1 ++ b2, ?_, ?_⟩, ?_, ?_⟩
    · rw [ha2]; simp [hst1, ha1]
    · rw [hb2]; simp [hst1, hb1]
    · intro e he
      rcases List.mem_append.mp he with h | h
      · exact Or.inl (hbe1 e h)
      · exact Or.inr (hbe2 e h)
    · rw [hl2]
    · rw [hf2]

theorem start_graphExt (pages : Pages) (url : Node) (layers : Int)
    (st : PyState) : GraphExt st (Webcrawler.start pages url layers st).2 := by
  obtain ⟨hn, ⟨b, hb, _⟩, hl, hf⟩ := start_ext pages url layers st
  exact ⟨hn, ⟨b, hb⟩, hl, hf⟩

theorem graphExt_nodes_le {st st1 : PyState} (h : GraphExt st st1) :
    st.graph.nodes.length ≤ st1.graph.nodes.length := by
  obtain ⟨⟨a, ha⟩, _, _, _⟩ := h
  simp [ha]

theorem runSeq_pres {α : Type} (step : α → PyState → Except PyErr Unit × PyState)
    (Q : PyState → Prop)
    (hstep : ∀ x st, Q st → Q (step x st).2) :
    ∀ xs st, Q st → Q (runSeq step xs st).2 := by
  intro xs
  induction xs with
  | nil => intro st h; exact h
  | cons x t ih =>
    intro st h
    have hx := hstep x st h
    rcases hr : step x st with ⟨r, st1⟩
    rw [hr] at hx
    cases r with
    | ok _ => rw [runSeq, hr]; exact ih st1 hx
    | error e => rw [runSeq, hr]; exact hx

theorem addNodeG_nodup (g : DiGraph) (n : Node) (h : g.nodes.Nodup) :
    (addNodeG g n).nodes.Nodup := by
  unfold addNodeG
  split
  · exact h
  · rename_i hn
    simp only [List.nodup_append, List.nodup_cons]
    exact ⟨h, by simp, by simpa [List.disjoint_left] using hn⟩

theorem addNodeG_nodup_edges (g : DiGraph) (n : Node) (h : g.edges.Nodup) :
    (addNodeG g n).edges.Nodup := by
  rw [addNodeG_edges]; exact h

theorem addEdgeOnly_nodup_edges (g : DiGraph) (u v : Node) (h : g.edges.Nodup) :
    (addEdgeOnly g u v).edges.Nodup := by
  unfold addEdgeOnly
  split
  · exact h
  · rename_i hn
    simp only [List.nodup_append, List.nodup_cons]
    exact ⟨h, by simp, by simpa [List.disjoint_left] using hn⟩

/-- `add_edge` preserves the set semantics of networkx: no duplicate
node keys, no duplicate directed edges. -/
theorem addEdgeG_nodup (g : DiGraph) (u v : Node)
    (h : g.nodes.Nodup ∧ g.edges.Nodup) :
    (addEdgeG g u v).nodes.Nodup ∧ (addEdgeG g u v).edges.Nodup := by
  unfold addEdgeG
  constructor
  · rw [addEdgeOnly_nodes]
    exact addNodeG_nodup _ v (addNodeG_nodup _ u h.1)
  · exact addEdgeOnly_nodup_edges _ u v
      (addNodeG_nodup_edges _ v (addNodeG_nodup_edges _ u h.2))

theorem addToGraph_nodup (g : DiGraph) (source url : Node)
    (h : g.nodes.Nodup ∧ g.edges.Nodup) :
    (Eintrag.addToGraph g source url).nodes.Nodup ∧
      (Eintrag.addToGraph g source url).edges.Nodup := by
  unfold Eintrag.addToGraph
  exact addEdgeG_nodup _ source url
    ⟨addNodeG_nodup _ url h.1, addNodeG_nodup_edges _ url h.2⟩

/-- The state predicate "the graph has networkx set semantics". -/
def NodupSt (st : PyState) : Prop := st.graph.nodes.Nodup ∧ st.graph.edges.Nodup

theorem index_nodup (pages : Pages) :
    ∀ fuel selfId anchors st, NodupSt st →
      NodupSt (Eintrag.index pages fuel selfId anchors st).2 := by
  intro fuel
  induction fuel with
  | zero => intro selfId anchors st h; exact h
  | succ f ih =>
    intro selfId anchors st h
    rw [Eintrag.index]
    rcases hg : Eintrag.getLinks anchors with e | links
    · exact h
    · refine runSeq_pres _ NodupSt ?_ links st h
      intro l st1 h1
      rcases hf : fetchA pages (Node.str l) with e | ca
      · exact h1
      · exact ih _ _ _ (addToGraph_nodup st1.graph _ _ h1)

theorem start_nodup (pages : Pages) (url : Node) (layers : Int)
    (st : PyState) (h : NodupSt st) :
    NodupSt (Webcrawler.start pages url layers st).2 := by
  rw [Webcrawler.start]
  rcases hf : fetchA pages url with e | anchors
  · exact h
  · exact index_nodup pages _ _ _ _ (addToGraph_nodup st.graph url url h)

/-- The registration edge is present after `addToGraph`. -/
theorem addToGraph_mem_edge (g : DiGraph) (source url : Node) :
    (source, url) ∈ (Eintrag.addToGraph g source url).edges := by
  unfold Eintrag.addToGraph addEdgeG addEdgeOnly
  split
  · assumption
  · simp

/-- The expansion loop of the growth test only appends to the graph and
leaves log and file untouched. -/
theorem expand_graphExt (pages : Pages) (ends : List Node) (st : PyState) :
    GraphExt st (runSeq (fun e st1 => Webcrawler.start pages e 0 st1) ends st).2 :=
  runSeq_rel _ GraphExt graphExt_refl (fun h1 h2 => graphExt_trans h1 h2)
    (fun e st1 => start_graphExt pages e 0 st1) ends st

/-- The inner growth-test loop only appends to the log. -/
theorem tniIter_log (pages : Pages) (i : Nat) :
    ∀ rem c st, ∃ rest,
      (Webcrawler.tniIter pages i rem c st).2.log = st.log ++ rest := by
  intro rem
  induction rem with
  | zero => intro c st; exact ⟨[], by simp [Webcrawler.tniIter]⟩
  | succ r ih =>
    intro c st
    rw [Webcrawler.tniIter]
    split
    · rename_i e st1 hrs
      have hlog : st1.log = st.log := by
        have h := expand_graphExt pages
          (st.graph.nodes.filter (fun n => degreeG st.graph n == 1)) st
        rw [hrs] at h
        exact h.2.2.1
      exact ⟨[], by simp [hlog]⟩
    · rename_i u st1 hrs
      have hlog : st1.log = st.log := by
        have h := expand_graphExt pages
          (st.graph.nodes.filter (fun n => degreeG st.graph n == 1)) st
        rw [hrs] at h
        exact h.2.2.1
      obtain ⟨rest, hrest⟩ := ih (c + 1)
        { st1 with log := st1.log ++ [Nat.repr i ++ "." ++ Nat.repr c ++ ": "
            ++ Nat.repr st1.graph.nodes.length] }
      refine ⟨(Nat.repr i ++ "." ++ Nat.repr c ++ ": "
        ++ Nat.repr st1.graph.nodes.length) :: rest, ?_⟩
      rw [hrest]
      simp [hlog]

/-- The outer growth-test loop only appends to the log. -/
theorem tniRun_log (pages : Pages) (seeds : Nat → String) (layers : Nat) :
    ∀ rem i st, ∃ rest,
      (Webcrawler.tniRun pages seeds layers rem i st).2.log = st.log ++ rest := by
  intro rem
  induction rem with
  | zero => intro i st; exact ⟨[], by simp [Webcrawler.tniRun]⟩
  | succ r ih =>
    intro i st
    rw [Webcrawler.tniRun]
    split
    · rename_i e st1 hs
      have hlog1 : st1.log = st.log := by
        have h := start_graphExt pages (Node.str (seeds i)) 0 st
        rw [hs] at h
        exact h.2.2.1
      exact ⟨[], by simp [hlog1]⟩
    · rename_i u st1 hs
      have hlog1 : st1.log = st.log := by
        have h := start_graphExt pages (Node.str (seeds i)) 0 st
        rw [hs] at h
        exact h.2.2.1
      split
      · rename_i e2 st3 hit
        obtain ⟨r3, h3⟩ := tniIter_log pages i layers 0
          { st1 with log := st1.log ++ [Nat.repr i ++ ".0: "
              ++ Nat.repr st1.graph.nodes.length ++ "\n"] }
        rw [hit] at h3
        refine ⟨(Nat.repr i ++ ".0: " ++ Nat.repr st1.graph.nodes.length ++ "\n") :: r3, ?_⟩
        rw [h3]
        simp [hlog1]
      · rename_i u2 st3 hit
        obtain ⟨r3, h3⟩ := tniIter_log pages i layers 0
          { st1 with log := st1.log ++ [Nat.repr i ++ ".0: "
              ++ Nat.repr st1.graph.nodes.length ++ "\n"] }
        rw [hit] at h3
        obtain ⟨r4, h4⟩ := ih (i + 1) st3
        refine ⟨(Nat.repr i ++ ".0: " ++ Nat.repr st1.graph.nodes.length ++ "\n")
          :: (r3 ++ r4), ?_⟩
        rw [h4, h3]
        simp [hlog1]

theorem headD_eq {a : Type} (l : List a) (d : a) : l.headD d = l.head?.getD d := by
  cases l <;> rfl

/-- On anchor lists free of the malformed-path cases, the first loop of
`Eintrag.getLinks` completes normally and keeps exactly the hrefs
selected by the spec's per-href rules, in order. -/
theorem collect_wf : ∀ hrefs : List String,
    (∀ l ∈ hrefs, wellFormedHref l = true) →
    collectLinks hrefs = Except.ok (some (hrefs.filter specKeep)) := by
  intro hrefs
  induction hrefs with
  | nil => intro _; rfl
  | cons l rest ih =>
    intro h
    have hl := h l (List.mem_cons_self l rest)
    have hrest := ih (fun x hx => h x (List.mem_cons_of_mem l hx))
    cases h1 : subOf httpsPat l.data with
    | true =>
      have hk : specKeep l = false := by simp [specKeep, h1]
      simp only [collectLinks, h1, Bool.true_or, if_true, List.filter_cons, hk,
        Bool.false_eq_true, if_false]
      exact hrest
    | false =>
      cases h2 : subOf httpPat l.data with
      | true =>
        have hk : specKeep l = false := by simp [specKeep, h2]
        simp only [collectLinks, h1, h2, Bool.or_self, Bool.false_or, if_true,
          List.filter_cons, hk, Bool.false_eq_true, if_false]
        exact hrest
      | false =>
        rcases hh : l.data.head? with _ | c
        · rw [wellFormedHref, h1, h2, hh] at hl
          simp at hl
        · by_cases hc : c = '#'
          · subst hc
            have hk : specKeep l = false := by simp [specKeep, hh]
            simp only [collectLinks, h1, h2, Bool.or_self, Bool.false_or, if_false, hh]
            simp only [if_true, List.filter_cons, hk, Bool.false_eq_true, if_false]
            exact hrest
          · rcases hsp : (splitChars '/' l.data).drop 1 with _ | ⟨s0, sp1⟩
            · rw [wellFormedHref, h1, h2, hh, hsp] at hl
              simp [hc] at hl
            · by_cases hw : s0 = wikiSeg
              · subst hw
                rcases hsp1 : sp1 with _ | ⟨s1, tl⟩
                · rw [wellFormedHref, h1, h2, hh, hsp, hsp1] at hl
                  simp [hc] at hl
                · subst hsp1
                  by_cases hexc : (splitChars ':' s1).headD [] ∈ excChars
                  · have hk : specKeep l = false := by
                      simp only [specKeep, hsp]
                      simp
                      intro _ _ _
                      rw [← headD_eq]
                      exact hexc
                    simp only [collectLinks, h1, h2, Bool.or_self, Bool.false_or,
                      if_false, hh, hc, hsp, if_true, hexc]
                    simp only [if_pos hexc, List.filter_cons, hk,
                      Bool.false_eq_true, if_false]
                    exact hrest
                  · have hk : specKeep l = true := by
                      simp [specKeep, h1, h2, hh, hc, hsp]
                      rw [← headD_eq]
                      exact hexc
                    simp only [collectLinks, h1, h2, Bool.or_self, Bool.false_or,
                      if_false, hh, hc, hsp]
                    simp only [if_neg hexc, hrest, List.filter_cons, hk, if_true]
                    rfl
              · have hk : specKeep l = false := by
                  rcases sp1 with _ | ⟨s1x, tlx⟩ <;> simp [specKeep, hsp, hw]
                simp only [collectLinks, h1, h2, Bool.or_self, Bool.false_or,
                  if_false, hh, hc, hsp]
                simp only [if_neg hw, List.filter_cons, hk, Bool.false_eq_true, if_false]
                exact hrest

/-- Membership in the union of a partition's classes. -/
def inParts (parts : List (List Node)) (u : Node) : Prop :=
  ∃ p, p ∈ parts ∧ u ∈ p

theorem pullClass_none {parts : List (List Node)} {u : Node}
    (h : pullClass parts u = none) : ¬ inParts parts u := by
  induction parts with
  | nil => rintro ⟨p, hp, _⟩; cases hp
  | cons p ps ih =>
    rw [pullClass] at h
    split at h
    · cases h
    · rename_i hup
      rintro ⟨q, hq, huq⟩
      rcases List.mem_cons.mp hq with rfl | hq2
      · exact hup huq
      · rcases hps : pullClass ps u with _ | ⟨q2, rest⟩
        · exact ih hps ⟨q, hq2, huq⟩
        · rw [hps] at h; cases h

theorem pullClass_spec {parts : List (List Node)} {u : Node}
    {q : List Node} {rest : List (List Node)}
    (h : pullClass parts u = some (q, rest)) :
    parts.length = rest.length + 1 ∧ u ∈ q ∧ q ∈ parts ∧
      ∀ x, inParts parts x ↔ (x ∈ q ∨ inParts rest x) := by
  induction parts generalizing q rest with
  | nil => cases h
  | cons p ps ih =>
    rw [pullClass] at h
    split at h
    · rename_i hup
      injection h with h2
      injection h2 with hq hrest
      subst hq
      subst hrest
      refine ⟨by simp, hup, List.mem_cons_self _ _, ?_⟩
      intro x
      constructor
      · rintro ⟨pp, hpp, hx⟩
        rcases List.mem_cons.mp hpp with rfl | hpp2
        · exact Or.inl hx
        · exact Or.inr ⟨pp, hpp2, hx⟩
      · rintro (hx | ⟨pp, hpp, hx⟩)
        · exact ⟨_, List.mem_cons_self _ _, hx⟩
        · exact ⟨pp, List.mem_cons_of_mem _ hpp, hx⟩
    · rename_i hup
      rcases hps : pullClass ps u with _ | ⟨q2, rest2⟩
      · rw [hps] at h; cases h
      · rw [hps] at h
        injection h with h2
        injection h2 with hq hrest
        subst hq
        subst hrest
        obtain ⟨hlen, huq, hqin, hmem⟩ := ih hps
        refine ⟨by simp [hlen], huq, List.mem_cons_of_mem _ hqin, ?_⟩
        intro x
        constructor
        · rintro ⟨pp, hpp, hx⟩
          rcases List.mem_cons.mp hpp with rfl | hpp2
          · exact Or.inr ⟨pp, List.mem_cons_self _ _, hx⟩
          · rcases (hmem x).mp ⟨pp, hpp2, hx⟩ with hq | ⟨pp2, hpp3, hx2⟩
            · exact Or.inl hq
            · exact Or.inr ⟨pp2, List.mem_cons_of_mem _ hpp3, hx2⟩
        · rintro (hx | ⟨pp, hpp, hx⟩)
          · rcases (hmem x).mpr (Or.inl hx) with ⟨pp, hpp, hx2⟩
            exact ⟨pp, List.mem_cons_of_mem _ hpp, hx2⟩
          · rcases List.mem_cons.mp hpp with rfl | hpp2
            · exact ⟨pp, List.mem_cons_self _ _, hx⟩
            · rcases (hmem x).mpr (Or.inr ⟨pp, hpp2, hx⟩) with ⟨pp2, hpp3, hx2⟩
              exact ⟨pp2, List.mem_cons_of_mem _ hpp3, hx2⟩

theorem sameClass_eq_true {parts : List (List Node)} {u v : Node}
    {p : List Node} (hp : p ∈ parts) (hu : u ∈ p) (hv : v ∈ p) :
    sameClass parts u v = true := by
  unfold sameClass
  rw [List.any_eq_true]
  exact ⟨p, hp, by simp [hu, hv]⟩

/-- Counting invariant of the spanning-forest sweep: when every edge
endpoint is covered by the partition, the number of basis cycles found
plus the number of starting classes equals the number of edges plus the
number of final classes; moreover the sweep only merges classes, never
changing the union of the partition. -/
theorem cyclesParts_spec : ∀ (es : List (Node × Node)) (parts : List (List Node)),
    (∀ e ∈ es, inParts parts e.1 ∧ inParts parts e.2) →
    (cyclesParts es parts).1 + parts.length
        = es.length + (cyclesParts es parts).2.length ∧
      ∀ x, inParts (cyclesParts es parts).2 x ↔ inParts parts x := by
  intro es
  induction es with
  | nil => intro parts _; exact ⟨by simp [cyclesParts], fun x => Iff.rfl⟩
  | cons e rest ih =>
    rcases e with ⟨u, v⟩
    intro parts hcov
    have hu : inParts parts u := (hcov (u, v) (List.mem_cons_self _ _)).1
    have hv : inParts parts v := (hcov (u, v) (List.mem_cons_self _ _)).2
    have hcovr : ∀ e ∈ rest, inParts parts e.1 ∧ inParts parts e.2 :=
      fun e he => hcov e (List.mem_cons_of_mem _ he)
    by_cases hsc : sameClass parts u v = true
    · have hred : cyclesParts ((u, v) :: rest) parts
          = ((cyclesParts rest parts).1 + 1, (cyclesParts rest parts).2) := by
        rw [cyclesParts, if_pos hsc]
      obtain ⟨hcount, hmem⟩ := ih parts hcovr
      rw [hred]
      refine ⟨?_, hmem⟩
      simp only [List.length_cons]
      omega
    · rcases hpu : pullClass parts u with _ | ⟨q, parts1⟩
      · exact absurd hu (pullClass_none hpu)
      · obtain ⟨hlen1, huq, hqin, hmem1⟩ := pullClass_spec hpu
        have hvq : v ∉ q := fun hvq => hsc (sameClass_eq_true hqin huq hvq)
        have hv1 : inParts parts1 v := by
          rcases (hmem1 v).mp hv with h | h
          · exact absurd h hvq
          · exact h
        rcases hpv : pullClass parts1 v with _ | ⟨q2, parts2⟩
        · exact absurd hv1 (pullClass_none hpv)
        · obtain ⟨hlen2, hvq2, hq2in, hmem2⟩ := pullClass_spec hpv
          have hred : cyclesParts ((u, v) :: rest) parts
              = cyclesParts rest ((q ++ q2) :: parts2) := by
            simp only [cyclesParts, if_neg hsc, hpu, hpv]
          have hmm : ∀ x, inParts ((q ++ q2) :: parts2) x ↔ inParts parts x := by
            intro x
            constructor
            · rintro ⟨pp, hpp, hx⟩
              rcases List.mem_cons.mp hpp with rfl | hpp2
              · rcases List.mem_append.mp hx with h | h
                · exact (hmem1 x).mpr (Or.inl h)
                · exact (hmem1 x).mpr (Or.inr ((hmem2 x).mpr (Or.inl h)))
              · exact (hmem1 x).mpr (Or.inr ((hmem2 x).mpr (Or.inr ⟨pp, hpp2, hx⟩)))
            · intro hx
              rcases (hmem1 x).mp hx with h | h
              · exact ⟨q ++ q2, List.mem_cons_self _ _, List.mem_append.mpr (Or.inl h)⟩
              · rcases (hmem2 x).mp h with h2 | ⟨pp, hpp, hx2⟩
                · exact ⟨q ++ q2, List.mem_cons_self _ _, List.mem_append.mpr (Or.inr h2)⟩
                · exact ⟨pp, List.mem_cons_of_mem _ hpp, hx2⟩
          have hcovm : ∀ e ∈ rest,
              inParts ((q ++ q2) :: parts2) e.1 ∧ inParts ((q ++ q2) :: parts2) e.2 :=
            fun e he => ⟨(hmm e.1).mpr (hcovr e he).1, (hmm e.2).mpr (hcovr e he).2⟩
          obtain ⟨hcount, hmem⟩ := ih ((q ++ q2) :: parts2) hcovm
          rw [hred]
          refine ⟨?_, fun x => (hmem x).trans (hmm x)⟩
          simp only [List.length_cons] at hcount ⊢
          omega

theorem start_graphExt' {pages : Pages} {url : Node} {layers : Int}
    {st : PyState} {r : Except PyErr Unit} {st1 : PyState}
    (h : Webcrawler.start pages url layers st = (r, st1)) : GraphExt st st1 := by
  have hg := start_graphExt pages url layers st
  rw [h] at hg
  exact hg

theorem expand_graphExt' {pages : Pages} {ends : List Node} {st : PyState}
    {r : Except PyErr Unit} {st1 : PyState}
    (h : runSeq (fun e st2 => Webcrawler.start pages e 0 st2) ends st = (r, st1)) :
    GraphExt st st1 := by
  have hg := expand_graphExt pages ends st
  rw [h] at hg
  exact hg

/-- C1 counterexample: on the spec's four-anchor seed page, the depth-0
crawl produces one single node (the seed) and one single edge — a
self-loop at the seed — because the unconditional `result.pop()` drops
the only valid link and the seed is registered with itself as source. -/
theorem c1_counterexample :
    (Webcrawler.start pagesC1 (Node.str "S1") 0 st0).2.graph.nodes.length = 1 ∧
    ¬ (Webcrawler.start pagesC1 (Node.str "S1") 0 st0).2.graph.nodes.length = 2 ∧
    (Webcrawler.start pagesC1 (Node.str "S1") 0 st0).2.graph.edges
      = [(Node.str "S1", Node.str "S1")] := by
  refine ⟨rfl, by decide, rfl⟩

/-- C1 (amended): for a seed page whose raw anchors are exactly two
external `https://` links, one fragment link `#cite` and one valid
article link, a depth-0 crawl on an empty graph yields exactly 1 node
(the seed) and 1 edge, a self-loop at the seed: the final-entry drop
removes the sole valid link, and the seed's registration edge comes from
its own URL. -/
theorem c1_amended (pages : Pages) (s : String) (st : PyState)
    (hp : pages s = some ["https://x.example/a", "https://y.example/b", "#cite", "/wiki/Ziel"])
    (hg : st.graph = ⟨[], []⟩) :
    Webcrawler.start pages (Node.str s) 0 st
      = (Except.ok (), { st with
          graph := ⟨[Node.str s], [(Node.str s, Node.str s)]⟩,
          nextId := st.nextId + 1 }) := by
  rw [Webcrawler.start]
  simp only [fetchA, hp]
  rw [hg]
  have hadd : Eintrag.addToGraph ⟨[], []⟩ (Node.str s) (Node.str s)
      = ⟨[Node.str s], [(Node.str s, Node.str s)]⟩ := by
    simp [Eintrag.addToGraph, addEdgeG, addNodeG, addEdgeOnly]
  rw [hadd]
  have h1 : ((0 : Int) + 1).toNat = 1 := rfl
  rw [h1]
  rw [Eintrag.index]
  have hgl : Eintrag.getLinks
      ["https://x.example/a", "https://y.example/b", "#cite", "/wiki/Ziel"]
      = Except.ok [] := rfl
  rw [hgl]
  rfl

theorem c1_witness :
    Webcrawler.start pagesC1 (Node.str "S1") 0 st0
      = (Except.ok (), ⟨⟨[Node.str "S1"], [(Node.str "S1", Node.str "S1")]⟩, 1, true, []⟩) :=
  c1_amended pagesC1 "S1" st0 rfl rfl

/-- C2: the fail-soft contract is broken by `result.pop()`.  A page with
no anchors at all, and a page whose anchors are all namespace-filtered,
both make `getLinks` raise `IndexError` (pop from an empty list) instead
of returning an empty link list; only the malformed-path case returns
`[]` fail-soft. -/
theorem c2_bug :
    Eintrag.getLinks [] = Except.error PyErr.indexError ∧
    Eintrag.getLinks ["/wiki/Diskussion:T", "/wiki/Spezial:S"]
      = Except.error PyErr.indexError ∧
    Eintrag.getLinks ["/wiki"] = Except.ok [] :=
  ⟨rfl, rfl, rfl⟩

/-- C3 counterexample: the crawl does register a self-edge — the seed
is registered with an edge from its declared source URL, which for the
seed is the seed itself. -/
theorem c3_counterexample :
    (Node.str "S3", Node.str "S3")
      ∈ (Webcrawler.start pagesC3 (Node.str "S3") 0 st0).2.graph.edges := by
  decide

/-- C3 (amended): every crawl invocation adds exactly one kind of
self-edge, the seed's registration edge `(url, url)`; every other edge
added by the crawl goes from an `Eintrag` object node to a URL string
node and hence is never a self-edge.  When the seed fetch succeeds, the
seed self-loop is present in the graph. -/
theorem c3_amended (pages : Pages) (url : Node) (layers : Int) (st : PyState) :
    (∀ e ∈ (Webcrawler.start pages url layers st).2.graph.edges,
        e ∈ st.graph.edges ∨ e = (url, url)
          ∨ ∃ k s2, e = (Node.obj k, Node.str s2)) ∧
    (∀ anchors, fetchA pages url = Except.ok anchors →
        (url, url) ∈ (Webcrawler.start pages url layers st).2.graph.edges) := by
  constructor
  · intro e he
    obtain ⟨_, ⟨b, hb, hbe⟩, _, _⟩ := start_ext pages url layers st
    rw [hb] at he
    rcases List.mem_append.mp he with h | h
    · exact Or.inl h
    · rcases hbe e h with h2 | h2
      · exact Or.inr (Or.inl h2)
      · exact Or.inr (Or.inr h2)
  · intro anchors hf
    rw [Webcrawler.start, hf]
    show (url, url) ∈ (Eintrag.index pages (layers + 1).toNat st.nextId anchors
      ⟨Eintrag.addToGraph st.graph url url, st.nextId + 1, st.file, st.log⟩).2.graph.edges
    obtain ⟨_, ⟨b, hb, _⟩, _, _⟩ :=
      index_childExt pages (layers + 1).toNat st.nextId anchors
        ⟨Eintrag.addToGraph st.graph url url, st.nextId + 1, st.file, st.log⟩
    rw [hb]
    exact List.mem_append_left _ (addToGraph_mem_edge st.graph url url)

theorem c3_witness :
    (Node.str "W3", Node.str "W3")
      ∈ (Webcrawler.start pagesW3 (Node.str "W3") 0 st0).2.graph.edges :=
  (c3_amended pagesW3 (Node.str "W3") 0 st0).2 ["/wiki"] rfl

/-- C4 counterexample: graph nodes are not keyed solely by URL strings —
the depth-0 crawl of a three-link page registers the seed's `Eintrag`
object itself as a node (it is the source endpoint of both child edges). -/
theorem c4_counterexample :
    Node.obj 0 ∈ (Webcrawler.start pagesC4 (Node.str "S4") 0 st0).2.graph.nodes ∧
    (Node.obj 0, Node.str "http://de.wikipedia.org/wiki/A")
      ∈ (Webcrawler.start pagesC4 (Node.str "S4") 0 st0).2.graph.edges := by
  exact ⟨by decide, by decide⟩

/-- C4 (amended): within one graph, node keys (URL strings or `Eintrag`
object identities) are never duplicated and the same directed edge is
never stored twice — networkx collapse semantics — but the source key of
each child edge is the fetching page's object identity, fresh per fetch,
not its URL string. -/
theorem c4_amended (pages : Pages) (url : Node) (layers : Int) (st : PyState)
    (h1 : st.graph.nodes.Nodup) (h2 : st.graph.edges.Nodup) :
    (Webcrawler.start pages url layers st).2.graph.nodes.Nodup ∧
      (Webcrawler.start pages url layers st).2.graph.edges.Nodup :=
  start_nodup pages url layers st ⟨h1, h2⟩

theorem c4_witness :
    (Webcrawler.start pagesW4 (Node.str "W4") 0 st0).2.graph.nodes.Nodup ∧
      (Webcrawler.start pagesW4 (Node.str "W4") 0 st0).2.graph.edges.Nodup :=
  c4_amended pagesW4 (Node.str "W4") 0 st0 (by decide) (by decide)

/-- C5 counterexample: on an anchor list with a malformed third entry
(`/wiki`), filtering completes — the except-handler returns `[]` for the
whole page — yet the result differs from the spec's per-href reference
filter, which keeps `/wiki/A` (after dropping `/wiki/B` as final entry). -/
theorem c5_counterexample :
    Eintrag.getLinks ["/wiki/A", "/wiki/B", "/wiki"] = Except.ok [] ∧
    linkFilterSpec ["/wiki/A", "/wiki/B", "/wiki"]
      = ["http://de.wikipedia.org/wiki/A"] ∧
    Eintrag.getLinks ["/wiki/A", "/wiki/B", "/wiki"]
      ≠ Except.ok (linkFilterSpec ["/wiki/A", "/wiki/B", "/wiki"]) := by
  refine ⟨rfl, rfl, ?_⟩
  intro h
  rw [show Eintrag.getLinks ["/wiki/A", "/wiki/B", "/wiki"] = Except.ok [] from rfl,
    show linkFilterSpec ["/wiki/A", "/wiki/B", "/wiki"]
      = ["http://de.wikipedia.org/wiki/A"] from rfl] at h
  cases h

/-- C5 (amended): on every anchor list that is free of the
malformed-path entries (those hitting the except-handler) and on which
filtering completes, `getLinks` returns exactly the spec's reference
LinkFilter result: per-href keep rules, origin prefix, first-seen
deduplication, final entry dropped. -/
theorem c5_amended (hrefs : List String) (out : List String)
    (hwf : ∀ l ∈ hrefs, wellFormedHref l = true)
    (hok : Eintrag.getLinks hrefs = Except.ok out) :
    out = linkFilterSpec hrefs := by
  have key : Eintrag.getLinks hrefs
      = (match dedupAux [] ((hrefs.filter specKeep).map (fun l => origin ++ l)) with
         | [] => Except.error PyErr.indexError
         | r => Except.ok r.dropLast) := by
    rw [Eintrag.getLinks, collect_wf hrefs hwf]
  rw [key] at hok
  rcases hd : dedupAux [] ((hrefs.filter specKeep).map (fun l => origin ++ l))
      with _ | ⟨x, xs⟩
  · rw [hd] at hok
    exact absurd hok (by simp)
  · rw [hd] at hok
    injection hok with hout
    rw [linkFilterSpec, hd]
    exact hout.symm

theorem c5_witness :
    (∀ l ∈ ["/wiki/A", "/wiki/B"], wellFormedHref l = true) ∧
    Eintrag.getLinks ["/wiki/A", "/wiki/B"]
      = Except.ok ["http://de.wikipedia.org/wiki/A"] ∧
    ["http://de.wikipedia.org/wiki/A"] = linkFilterSpec ["/wiki/A", "/wiki/B"] :=
  ⟨by decide, rfl, c5_amended ["/wiki/A", "/wiki/B"] _ (by decide) rfl⟩

/-- C10: an empty-string href makes the link-collection loop raise an
uncaught `IndexError` at the `str(l)[0] == '#'` test (which runs outside
the except-handler); the error aborts the page's link extraction — it is
not an empty link list — and propagates out of the crawl recursion. -/
theorem c10_empty_href :
    Eintrag.getLinks [""] = Except.error PyErr.indexError ∧
    Eintrag.getLinks [""] ≠ Except.ok [] ∧
    (Webcrawler.start pagesC10 (Node.str "S10") 0 st0).1
      = Except.error PyErr.indexError := by
  refine ⟨rfl, ?_, rfl⟩
  intro h
  rw [show Eintrag.getLinks [""] = Except.error PyErr.indexError from rfl] at h
  cases h

/-- C8: a fetch error raised anywhere inside the crawl recursion
reaches `createGraph`'s top-level handler unswallowed (the reported
error is the raised one), and the graph keeps everything registered
before the failure: the failure-time state is returned as is, and it
extends the initial graph (no rollback). -/
theorem c8_propagation (pages : Pages) (u : String) (layers : Int)
    (st : PyState) (e : PyErr) (st1 : PyState)
    (h : Webcrawler.start pages (Node.str u) layers st = (Except.error e, st1)) :
    Webcrawler.createGraph pages u layers st = (some e, st1) ∧
    (∃ a, st1.graph.nodes = st.graph.nodes ++ a) ∧
    (∃ b, st1.graph.edges = st.graph.edges ++ b) := by
  refine ⟨?_, (start_graphExt' h).1, (start_graphExt' h).2.1⟩
  rw [Webcrawler.createGraph, h]

theorem c8_witness :
    Webcrawler.createGraph pagesC8 "F8" 1 st0
      = (some PyErr.fetchError,
         ⟨⟨[Node.str "F8", Node.str "http://de.wikipedia.org/wiki/A", Node.obj 0,
            Node.str "http://de.wikipedia.org/wiki/D", Node.obj 1],
           [(Node.str "F8", Node.str "F8"),
            (Node.obj 0, Node.str "http://de.wikipedia.org/wiki/A"),
            (Node.obj 1, Node.str "http://de.wikipedia.org/wiki/D")]⟩, 3, true, []⟩) :=
  (c8_propagation pagesC8 "F8" 1 st0 PyErr.fetchError _ rfl).1

theorem undFold_mem : ∀ (es acc : List (Node × Node)) (x : Node × Node),
    x ∈ undFold acc es → x ∈ acc ∨ x ∈ es ∨ (x.2, x.1) ∈ es := by
  intro es
  induction es with
  | nil => intro acc x hx; exact Or.inl hx
  | cons e rest ih =>
    intro acc x hx
    rcases e with ⟨u, v⟩
    rw [undFold] at hx
    split at hx
    · rcases ih acc x hx with h1 | h1 | h1
      · exact Or.inl h1
      · exact Or.inr (Or.inl (List.mem_cons_of_mem _ h1))
      · exact Or.inr (Or.inr (List.mem_cons_of_mem _ h1))
    · rcases ih (acc ++ [(u, v)]) x hx with h1 | h1 | h1
      · rcases List.mem_append.mp h1 with h2 | h2
        · exact Or.inl h2
        · rcases List.mem_singleton.mp h2 with rfl
          exact Or.inr (Or.inl (List.mem_cons_self _ _))
      · exact Or.inr (Or.inl (List.mem_cons_of_mem _ h1))
      · exact Or.inr (Or.inr (List.mem_cons_of_mem _ h1))

theorem inParts_singletons (ns : List Node) (x : Node) :
    inParts (ns.map (fun n => [n])) x ↔ x ∈ ns := by
  constructor
  · rintro ⟨p, hp, hx⟩
    rcases List.mem_map.mp hp with ⟨n, hn, rfl⟩
    rcases List.mem_singleton.mp hx with rfl
    exact hn
  · intro hx
    exact ⟨[x], List.mem_map.mpr ⟨x, hx, rfl⟩, List.mem_singleton.mpr rfl⟩

/-- C9: the cycle test returns the size of a cycle basis of the
undirected projection, and that size equals
`edges − nodes + connectedComponents` of the projection. -/
theorem c9_cycle_basis (g : DiGraph)
    (h : ∀ e ∈ g.edges, e.1 ∈ g.nodes ∧ e.2 ∈ g.nodes) :
    (Webcrawler.testCycles g : Int)
      = ((toUndirected g).edges.length : Int) - (g.nodes.length : Int)
        + (componentsCount (toUndirected g) : Int) := by
  have hcov : ∀ e ∈ (toUndirected g).edges,
      inParts ((toUndirected g).nodes.map (fun n => [n])) e.1 ∧
        inParts ((toUndirected g).nodes.map (fun n => [n])) e.2 := by
    intro e he
    have hm := undFold_mem g.edges [] e he
    rcases hm with h1 | h1 | h1
    · cases h1
    · exact ⟨(inParts_singletons _ _).mpr (h e h1).1,
        (inParts_singletons _ _).mpr (h e h1).2⟩
    · exact ⟨(inParts_singletons _ _).mpr (h (e.2, e.1) h1).2,
        (inParts_singletons _ _).mpr (h (e.2, e.1) h1).1⟩
  obtain ⟨hcount, _⟩ := cyclesParts_spec (toUndirected g).edges
    ((toUndirected g).nodes.map (fun n => [n])) hcov
  have hlen : ((toUndirected g).nodes.map (fun n => [n])).length
      = g.nodes.length := by
    simp [toUndirected]
  rw [hlen] at hcount
  have ht : Webcrawler.testCycles g
      = (cyclesParts (toUndirected g).edges
          ((toUndirected g).nodes.map (fun n => [n]))).1 := rfl
  have hc : componentsCount (toUndirected g)
      = (cyclesParts (toUndirected g).edges
          ((toUndirected g).nodes.map (fun n => [n]))).2.length := rfl
  rw [ht, hc]
  omega

theorem c9_witness :
    (Webcrawler.testCycles g3 : Int)
      = ((toUndirected g3).edges.length : Int) - (g3.nodes.length : Int)
        + (componentsCount (toUndirected g3) : Int) :=
  c9_cycle_basis g3 (by decide)

theorem tniIter_log' {pages : Pages} {i rem c : Nat} {st : PyState}
    {r : Except PyErr Unit} {st3 : PyState}
    (h : Webcrawler.tniIter pages i rem c st = (r, st3)) :
    ∃ rest, st3.log = st.log ++ rest := by
  have hg := tniIter_log pages i rem c st
  rw [h] at hg
  exact hg

theorem take_app_cons {α : Type} (a : List α) (b : α) (c : List α) :
    (a ++ b :: c).take (a.length + 1) = a ++ [b] := by
  induction a with
  | nil => rfl
  | cons x t ih =>
    simp only [List.cons_append, List.length_cons, List.take_succ_cons, ih]

/-- C6 counterexample: the growth test's initial reset does not empty
the in-memory node set.  Starting from a state whose graph already holds
the node `X`, the reset leaves `X` in place, the recorded count for run
0 iteration 0 is 4 — while the same run on an empty store yields 3
nodes — and `X` is still in the graph afterwards. -/
theorem c6_counterexample :
    (Webcrawler.resetGraph stPre).graph.nodes = [Node.str "X"] ∧
    (Webcrawler.testNodeIncrease pagesC6 (fun _ => "T6") 1 0 stPre).2.log
      = ["0.0: 4\n"] ∧
    Node.str "X" ∈
      (Webcrawler.testNodeIncrease pagesC6 (fun _ => "T6") 1 0 stPre).2.graph.nodes ∧
    (Webcrawler.testNodeIncrease pagesC6 (fun _ => "T6") 1 0 st0).2.graph.nodes.length
      = 3 := by
  refine ⟨rfl, rfl, by decide, rfl⟩

/-- C6 (amended): the growth test's initial reset deletes only the
persisted file; the in-memory graph is untouched, so when the first seed
crawl succeeds, the count in the first log record (`"0.0: n"`) is the
node count of the *pre-existing* graph plus the crawl's additions —
at least the pre-reset node count — not a count starting from zero. -/
theorem c6_amended (pages : Pages) (seeds : Nat → String) (layers r : Nat)
    (st st1 : PyState)
    (h1 : Webcrawler.start pages (Node.str (seeds 0)) 0 (Webcrawler.resetGraph st)
      = (Except.ok (), st1)) :
    (Webcrawler.resetGraph st).graph = st.graph ∧
    (Webcrawler.resetGraph st).file = false ∧
    st.graph.nodes.length ≤ st1.graph.nodes.length ∧
    (Webcrawler.testNodeIncrease pages seeds (r + 1) layers st).2.log.take
        (st.log.length + 1)
      = st.log ++ [Nat.repr 0 ++ ".0: " ++ Nat.repr st1.graph.nodes.length ++ "\n"] := by
  have hge1 := start_graphExt' h1
  have hlog1 : st1.log = st.log := hge1.2.2.1
  have hmono0 := graphExt_nodes_le hge1
  have hmono : st.graph.nodes.length ≤ st1.graph.nodes.length := hmono0
  refine ⟨rfl, rfl, hmono, ?_⟩
  rw [Webcrawler.testNodeIncrease, Webcrawler.tniRun]
  split
  · rename_i e stx hs
    rw [h1] at hs
    simp at hs
  · rename_i u stx hs
    rw [h1] at hs
    injection hs with hA hB
    subst hB
    split
    · rename_i e2 st3 hit
      obtain ⟨rest, hr⟩ := tniIter_log' hit
      have hr2 : st3.log = (st1.log
          ++ [Nat.repr 0 ++ ".0: " ++ Nat.repr st1.graph.nodes.length ++ "\n"])
          ++ rest := hr
      show st3.log.take (st.log.length + 1) = _
      rw [hr2, hlog1, List.append_assoc]
      exact take_app_cons st.log _ rest
    · rename_i u2 st3 hit
      obtain ⟨rest, hr⟩ := tniIter_log' hit
      have hr2 : st3.log = (st1.log
          ++ [Nat.repr 0 ++ ".0: " ++ Nat.repr st1.graph.nodes.length ++ "\n"])
          ++ rest := hr
      obtain ⟨rest2, hr3⟩ := tniRun_log pages seeds layers r (0 + 1) st3
      rw [hr3, hr2, hlog1, List.append_assoc, List.append_assoc]
      exact take_app_cons st.log _ _

theorem c6_witness :
    (Webcrawler.resetGraph stPre).graph = stPre.graph ∧
    (Webcrawler.resetGraph stPre).file = false ∧
    stPre.graph.nodes.length ≤ 4 ∧
    (Webcrawler.testNodeIncrease pagesC6 (fun _ => "T6") 1 0 stPre).2.log.take
        (stPre.log.length + 1)
      = stPre.log ++ [Nat.repr 0 ++ ".0: " ++ Nat.repr 4 ++ "\n"] :=
  c6_amended pagesC6 (fun _ => "T6") 0 0 stPre
    ⟨⟨[Node.str "X", Node.str "T6", Node.str "http://de.wikipedia.org/wiki/A",
       Node.obj 0],
      [(Node.str "T6", Node.str "T6"),
       (Node.obj 0, Node.str "http://de.wikipedia.org/wiki/A")]⟩, 2, false, []⟩
    rfl

/-- C7 counterexample: the growth test with `runs = 1, layers = 1`
completes and writes exactly two records, but the second one is labelled
`"0.0"` — not `"0.1"` — and is not newline-terminated, so it is not on a
line of its own. -/
theorem c7_counterexample :
    (Webcrawler.testNodeIncrease pagesC7 (fun _ => "T7") 1 1 st0).1
      = Except.ok () ∧
    (Webcrawler.testNodeIncrease pagesC7 (fun _ => "T7") 1 1 st0).2.log
      = ["0.0: 4\n", "0.0: 8"] ∧
    "0.0: 8".data.getLast? ≠ some '\n' := by
  refine ⟨rfl, rfl, by decide⟩

/-- C7 (amended): whenever the growth test with `runs = 1, layers = 1`
completes, the log gains exactly two records: first
`"0.0: n1\n"` with `n1` the count right after the seed crawl, and then
`"0.0: n2"` — iteration index 0 again, with no trailing newline — with
`n2` the final node count, and `n1 ≤ n2`. -/
theorem c7_amended (pages : Pages) (seeds : Nat → String) (st st' : PyState)
    (h : Webcrawler.testNodeIncrease pages seeds 1 1 st = (Except.ok (), st')) :
    st'.log = st.log ++
      [Nat.repr 0 ++ ".0: " ++ Nat.repr (tniFirstCount pages seeds st) ++ "\n",
       Nat.repr 0 ++ "." ++ Nat.repr 0 ++ ": " ++ Nat.repr st'.graph.nodes.length] ∧
    tniFirstCount pages seeds st ≤ st'.graph.nodes.length := by
  rw [Webcrawler.testNodeIncrease, Webcrawler.tniRun] at h
  split at h
  · rename_i e st1 hs
    simp at h
  · rename_i u st1 hs
    cases u
    simp only [Webcrawler.tniIter, Webcrawler.tniRun] at h
    split at h
    · rename_i e2 stx hrs
      simp at h
    · rename_i u2 st2b hrs
      split at hrs
      · rename_i e3 stx hrs2
        simp at hrs
      · rename_i u3 st2c hrs2
        injection hrs with hA hB
        injection h with hC hD
        subst hB
        subst hD
        have hfc : tniFirstCount pages seeds st = st1.graph.nodes.length := by
          rw [tniFirstCount, hs]
        have hge1 := start_graphExt' hs
        have hlog1 : st1.log = st.log := hge1.2.2.1
        have hge2 := expand_graphExt' hrs2
        have hlog2 : st2c.log = st1.log
            ++ [Nat.repr 0 ++ ".0: " ++ Nat.repr st1.graph.nodes.length ++ "\n"] :=
          hge2.2.2.1
        have hn0 := graphExt_nodes_le hge2
        have hn : st1.graph.nodes.length ≤ st2c.graph.nodes.length := hn0
        constructor
        · simp [hfc, hlog2, hlog1]
        · rw [hfc]
          exact hn

theorem c7_witness :
    ["0.0: 4\n", "0.0: 8"] = st0.log ++
      [Nat.repr 0 ++ ".0: "
         ++ Nat.repr (tniFirstCount pagesC7 (fun _ => "T7") st0) ++ "\n",
       Nat.repr 0 ++ "." ++ Nat.repr 0 ++ ": " ++ Nat.repr 8] ∧
    tniFirstCount pagesC7 (fun _ => "T7") st0 ≤ 8 :=
  c7_amended pagesC7 (fun _ => "T7") st0
    ⟨⟨[Node.str "T7", Node.str "http://de.wikipedia.org/wiki/A", Node.obj 0,
       Node.str "http://de.wikipedia.org/wiki/B",
       Node.str "http://de.wikipedia.org/wiki/P", Node.obj 3,
       Node.str "http://de.wikipedia.org/wiki/Q", Node.obj 6],
      [(Node.str "T7", Node.str "T7"),
       (Node.obj 0, Node.str "http://de.wikipedia.org/wiki/A"),
       (Node.obj 0, Node.str "http://de.wikipedia.org/wiki/B"),
       (Node.str "http://de.wikipedia.org/wiki/A",
        Node.str "http://de.wikipedia.org/wiki/A"),
       (Node.obj 3, Node.str "http://de.wikipedia.org/wiki/P"),
       (Node.obj 3, Node.str "http://de.wikipedia.org/wiki/Q"),
       (Node.str "http://de.wikipedia.org/wiki/B",
        Node.str "http://de.wikipedia.org/wiki/B"),
       (Node.obj 6, Node.str "http://de.wikipedia.org/wiki/P"),
       (Node.obj 6, Node.str "http://de.wikipedia.org/wiki/Q")]⟩,
     9, false, ["0.0: 4\n", "0.0: 8"]⟩
    rfl
